import Mathlib

set_option maxRecDepth 8000

/-
A verification development for the answer-resolution pipeline of
`src/Main.py` (a hybrid rule-based + Wikipedia chatbot).

Modelling conventions:
* Python strings are lists of characters (`Str`); the ASCII fragments of
  `str.lower`, `str.strip`, and the regex classes are modelled exactly.
* Python floats are modelled as exact rationals.
* The parts of `difflib` that the program calls (`get_close_matches`,
  `SequenceMatcher.ratio` and its quick upper bounds) are embedded from
  the CPython library, in the no-junk regime that applies to sequences
  shorter than 200 elements (which covers the knowledge base).
  `find_longest_match` follows its documented contract: the largest
  matching block, breaking ties by the smallest start in `a` and then
  the smallest start in `b`.
* The `wikipedia` package is an external collaborator, modelled as a
  record of two possibly-failing operations.
* A raised Python exception is an `Except.error`.
-/

/-- Python strings, modelled as lists of characters. -/
abbrev Str : Type := List Char

/-- The whitespace class of Python `str.strip` and of the regex class
`\s` (ASCII fragment). -/
def pyIsSpace (c : Char) : Bool :=
  c == ' ' || c == '\t' || c == '\n' || c == '\x0b' || c == '\x0c' || c == '\r'

/-- The regex class `\w` (ASCII fragment): alphanumeric or underscore. -/
def isWordChar (c : Char) : Bool :=
  c.isAlphanum || c == '_'

/-- A character kept by `re.sub(r"[^\w\s]", "", ...)` in `normalize_text`. -/
def keepChar (c : Char) : Bool :=
  isWordChar c || pyIsSpace c

/-- Remove trailing whitespace (the right half of Python `str.strip()`). -/
def stripRight : Str → Str
  | [] => []
  | c :: t =>
    let r := stripRight t
    if r.isEmpty && pyIsSpace c then [] else c :: r

/-- Python `str.strip()` (ASCII whitespace fragment). -/
def pyStrip (s : Str) : Str :=
  stripRight (s.dropWhile pyIsSpace)

/-- Python `str.lower()` applied characterwise; on the basic-latin
fragment this is exactly `Char.toLower`. -/
def pyLower (s : Str) : Str :=
  s.map Char.toLower

/-- One pass of `re.sub(r"\s+", " ", ...)`; the boolean records whether
the previous character belonged to a whitespace run already replaced. -/
def collapseAux : Bool → Str → Str
  | _, [] => []
  | prevSpace, c :: t =>
    if pyIsSpace c then
      if prevSpace then collapseAux true t
      else ' ' :: collapseAux true t
    else c :: collapseAux false t

/-- `re.sub(r"\s+", " ", ...)`: replace every whitespace run by one space. -/
def collapseSpaces (s : Str) : Str :=
  collapseAux false s

/-- `normalize_text` from `src/Main.py`: lowercase, strip, delete the
characters that are neither word characters nor whitespace, and collapse
whitespace runs. -/
def normalize_text (text : Str) : Str :=
  collapseSpaces ((pyStrip (pyLower text)).filter keepChar)

/-- Python substring membership `sub in s` on strings. -/
def pyInStr (sub : Str) : Str → Bool
  | [] => sub.isEmpty
  | c :: t => sub.isPrefixOf (c :: t) || pyInStr sub t

/-- `a[i:i+k] == b[j:j+k]` with both ranges in bounds: a matching block
of size `k` in the sense of `difflib.SequenceMatcher`. -/
def isMatchAt (a b : Str) (i j k : Nat) : Bool :=
  decide (i + k ≤ a.length) && decide (j + k ≤ b.length) &&
    decide ((a.drop i).take k = (b.drop j).take k)

/-- Whether `a` and `b` have a matching block of size `k`. -/
def hasMatchOfSize (a b : Str) (k : Nat) : Bool :=
  (List.range (a.length + 1)).any fun i =>
    (List.range (b.length + 1)).any fun j => isMatchAt a b i j k

/-- The size of the longest matching block of `a` and `b`. -/
def lmSize (a b : Str) : Nat :=
  match ((List.range (min a.length b.length + 1)).filter (hasMatchOfSize a b)).getLast? with
  | some k => k
  | none => 0

/-- `SequenceMatcher.find_longest_match` over the whole sequences, in
the no-junk regime: the longest matching block, taking the smallest
start in `a` and then the smallest start in `b` (its documented
contract). The `none` fallbacks are unreachable because the empty block
always matches. -/
def findLongestMatch (a b : Str) : Nat × Nat × Nat :=
  let k := lmSize a b
  match (List.range (a.length + 1)).find?
      (fun i => (List.range (b.length + 1)).any fun j => isMatchAt a b i j k) with
  | none => (0, 0, 0)
  | some i =>
    match (List.range (b.length + 1)).find? (fun j => isMatchAt a b i j k) with
    | none => (0, 0, 0)
    | some j => (i, j, k)

/-- The total size of the matching blocks
(`SequenceMatcher.get_matching_blocks`): recurse left and right of the
longest match. The fuel argument keeps the recursion structural; any
fuel above `a.length` computes the same value. -/
def matchTotalFuel : Nat → Str → Str → Nat
  | 0, _, _ => 0
  | fuel + 1, a, b =>
    let m := findLongestMatch a b
    if m.2.2 = 0 then 0
    else
      m.2.2 + matchTotalFuel fuel (a.take m.1) (b.take m.2.1) +
        matchTotalFuel fuel (a.drop (m.1 + m.2.2)) (b.drop (m.2.1 + m.2.2))

/-- The total size of the matching blocks of `a` and `b`. -/
def matchTotal (a b : Str) : Nat :=
  matchTotalFuel (a.length + 1) a b

/-- `difflib._calculate_ratio`, on a count of matches and a total length. -/
def calcRatioQ (m length : Nat) : ℚ :=
  if length = 0 then 1 else Rat.divInt (2 * (m : ℤ)) (length : ℤ)

/-- `SequenceMatcher(None, a, b).ratio()`. -/
def ratioQ (a b : Str) : ℚ :=
  calcRatioQ (matchTotal a b) (a.length + b.length)

/-- `SequenceMatcher.quick_ratio()`: the upper bound counting, for each
distinct character of `a`, how often it occurs in both sequences. -/
def quickRatioQ (a b : Str) : ℚ :=
  calcRatioQ ((a.dedup.map fun c => min (a.count c) (b.count c)).sum) (a.length + b.length)

/-- `SequenceMatcher.real_quick_ratio()`. -/
def realQuickRatioQ (a b : Str) : ℚ :=
  calcRatioQ (min a.length b.length) (a.length + b.length)

/-- Python string `<` (lexicographic on code points). -/
def strLtB : Str → Str → Bool
  | [], [] => false
  | [], _ :: _ => true
  | _ :: _, [] => false
  | a :: as, b :: bs => if a < b then true else if b < a then false else strLtB as bs

/-- Descending comparison of the `(score, candidate)` tuples built by
`get_close_matches`, as `heapq.nlargest` compares them (score first,
then the string, lexicographically). -/
def pairGe (p q : ℚ × Str) : Bool :=
  decide (q.1 < p.1) || (decide (p.1 = q.1) && !strLtB p.2 q.2)

/-- Insertion into a descending-sorted list of scored candidates. -/
def insertDesc (p : ℚ × Str) : List (ℚ × Str) → List (ℚ × Str)
  | [] => [p]
  | q :: t => if pairGe p q then p :: q :: t else q :: insertDesc p t

/-- Descending sort; `heapq.nlargest n xs` is `(sortDesc xs).take n`. -/
def sortDesc : List (ℚ × Str) → List (ℚ × Str)
  | [] => []
  | p :: t => insertDesc p (sortDesc t)

/-- The `ValueError` that `difflib.get_close_matches` raises on invalid
arguments. -/
inductive PyErr : Type
  | valueError : PyErr
deriving DecidableEq

instance instDecEqExcept {ε α : Type} [DecidableEq ε] [DecidableEq α] :
    DecidableEq (Except ε α) := fun a b =>
  match a, b with
  | .error e, .error f =>
    match decEq e f with
    | .isTrue h => .isTrue (congrArg Except.error h)
    | .isFalse h => .isFalse fun hh => h (Except.error.inj hh)
  | .ok x, .ok y =>
    match decEq x y with
    | .isTrue h => .isTrue (congrArg Except.ok h)
    | .isFalse h => .isFalse fun hh => h (Except.ok.inj hh)
  | .error _, .ok _ => .isFalse fun hh => Except.noConfusion hh
  | .ok _, .error _ => .isFalse fun hh => Except.noConfusion hh

/-- `difflib.get_close_matches word possibilities n cutoff`: raises
`ValueError` unless `n > 0` and `0 <= cutoff <= 1`; otherwise keeps the
candidates whose ratio cascade clears the cutoff and returns the `n`
best, ordered descending. -/
def get_close_matches (word : Str) (possibilities : List Str) (n : Nat) (cutoff : ℚ) :
    Except PyErr (List Str) :=
  if n = 0 then .error .valueError
  else if ¬(0 ≤ cutoff ∧ cutoff ≤ 1) then .error .valueError
  else
    let result := possibilities.filterMap fun x =>
      if cutoff ≤ realQuickRatioQ x word ∧ cutoff ≤ quickRatioQ x word ∧ cutoff ≤ ratioQ x word
      then some (ratioQ x word, x) else none
    .ok (((sortDesc result).take n).map fun p => p.2)

/-- The knowledge base `QA_KB` of `src/Main.py`: a dict in insertion
order with unique keys, modelled as an association list. -/
def QA_KB : List (Str × Str) :=
  [ ( "what is python".data,
      "Python is a high-level, interpreted programming language known for its readability and large ecosystem.".data),
    ( "who is elon musk".data,
      "Elon Musk is an entrepreneur and CEO of Tesla and SpaceX, among other ventures.".data),
    ( "what is ai".data,
      "AI stands for Artificial Intelligence — the simulation of human intelligence in machines.".data),
    ( "what is github".data,
      "GitHub is a platform for hosting and collaborating on software projects using Git.".data),
    ( "how to learn programming".data,
      "Start with fundamentals (variables, loops, functions), build small projects, and practice consistently.".data),
    ( "what is machine learning".data,
      "Machine Learning is a subset of AI that allows systems to learn patterns from data and make predictions.".data) ]

/-- Dict lookup `kb[k]` (defined lookup as an option; in the program it
is only applied to keys known to be present). -/
def kbGet (kb : List (Str × Str)) (k : Str) : Option Str :=
  (kb.find? fun e => e.1 == k).map fun e => e.2

/-- The similarity threshold setting `FUZZY_CUTOFF` (0.6). -/
def FUZZY_CUTOFF : ℚ := Rat.divInt 6 10

/-- The setting `WIKI_SENTENCES` (2). -/
def WIKI_SENTENCES : Nat := 2

/-- The substring-containment fallback loop of `find_best_local_answer`:
iterate the dict entries in order; on the first key related to the
normalized query by substring containment in either direction, return it
together with its answer if the similarity score clears the cutoff. -/
def substringFallback (qn : Str) (cutoff : ℚ) : List (Str × Str) → Option Str × Option Str × ℚ
  | [] => (none, none, 0)
  | e :: t =>
    if (pyInStr e.1 qn || pyInStr qn e.1) && decide (cutoff ≤ ratioQ qn e.1)
    then (some e.1, some e.2, ratioQ qn e.1)
    else substringFallback qn cutoff t

/-- `find_best_local_answer` from `src/Main.py`. An `.error` models the
`ValueError` that `difflib.get_close_matches` raises on an invalid
cutoff; an `.ok` carries the triple `(match_key, answer, score)`. -/
def find_best_local_answer (user_q : Str) (kb : List (Str × Str)) (cutoff : ℚ) :
    Except PyErr (Option Str × Option Str × ℚ) :=
  let user_q_norm := normalize_text user_q
  match get_close_matches user_q_norm (kb.map fun e => e.1) 3 cutoff with
  | .error e => .error e
  | .ok (best :: _) => .ok (some best, kbGet kb best, ratioQ user_q_norm best)
  | .ok [] => .ok (substringFallback user_q_norm cutoff kb)

/-- The error kinds of the `wikipedia` package that `src/Main.py`
distinguishes: `DisambiguationError` (with its candidate options),
`PageError`, and anything else (including transport failures). -/
inductive WikiErr : Type
  | disambiguation (options : List Str) : WikiErr
  | pageError : WikiErr
  | other : WikiErr
deriving DecidableEq

/-- The external summary provider: `wikipedia.search query results` and
`wikipedia.summary title sentences auto_suggest redirect`, each of which
may raise. -/
structure WikiProvider : Type where
  search : Str → Nat → Except WikiErr (List Str)
  summary : Str → Nat → Bool → Bool → Except WikiErr Str

/-- The attribution format `According to Wikipedia (title):\nsummary`. -/
def formatWiki (title body : Str) : Str :=
  "According to Wikipedia (".data ++ title ++ "):\n".data ++ body

/-- The body of the outer `try` of `fetch_wikipedia_summary`: search,
then summarize the top result; `none` is the early `return None` on an
empty search result. -/
def wikiTry (p : WikiProvider) (query : Str) (sentences : Nat) :
    Except WikiErr (Option Str) :=
  match p.search query 5 with
  | .error e => .error e
  | .ok [] => .ok none
  | .ok (page_title :: _) =>
    match p.summary page_title sentences false true with
    | .error e => .error e
    | .ok s => .ok (some (formatWiki page_title s))

/-- `fetch_wikipedia_summary` from `src/Main.py`: every provider error
is caught. A `DisambiguationError` triggers exactly one retry on its
first option; an empty option list models `e.options[0]` raising, which
the inner `except Exception` also turns into `None`. -/
def fetch_wikipedia_summary (p : WikiProvider) (query : Str) (sentences : Nat) : Option Str :=
  match wikiTry p query sentences with
  | .ok r => r
  | .error (.disambiguation options) =>
    match options with
    | [] => none
    | option :: _ =>
      match p.summary option sentences false true with
      | .ok s => some (formatWiki option s)
      | .error _ => none
  | .error .pageError => none
  | .error .other => none

/-- A provider on which every operation fails. -/
def noProvider : WikiProvider :=
  ⟨fun _ _ => .error .other, fun _ _ _ _ => .error .other⟩

/-- The canned replies and messages of `chatbot_reply`. -/
def promptMsg : Str := "Please type something — I didn\x27t get your message.".data

def greetingMsg : Str := "Hello! How can I help you today?".data

def howAreYouMsg : Str := "I\x27m a program, doing fine! How about you?".data

def identityMsg : Str := "I\x27m ChatBot — a hybrid assistant (local + Wikipedia). Type \x27help\x27 to see options.".data

def thanksMsg : Str := "You\x27re welcome!".data

def byeMsg : Str := "Goodbye! Have a great day".data

def helpMsg : Str := "I can answer common questions from my local knowledge base. If I don\x27t know, I\x27ll try Wikipedia. Examples:\n- Who is Elon Musk?\n- What is Python?\nType \x27exit\x27 to leave.".data

def fallbackMsg : Str := "Sorry, I couldn\x27t find an answer. Try rephrasing or ask something else.".data

/-- The greeting quick-reply test on `low`: any of hi/hello/hey as a
substring. -/
def isGreetingQ (low : Str) : Bool :=
  pyInStr "hi".data low || pyInStr "hello".data low || pyInStr "hey".data low

/-- The how-are-you quick-reply test. -/
def isHowAreYouQ (low : Str) : Bool :=
  pyInStr "how are you".data low || pyInStr "how r you".data low || pyInStr "how are u".data low

/-- The identity quick-reply test. -/
def isIdentityQ (low : Str) : Bool :=
  pyInStr "your name".data low || pyInStr "who are you".data low

/-- The thanks quick-reply test (exact phrases). -/
def isThanksQ (low : Str) : Bool :=
  pyStrip low == "thanks".data || pyStrip low == "thank you".data || pyStrip low == "thx".data

/-- The farewell quick-reply test (exact phrases). -/
def isExitQ (low : Str) : Bool :=
  pyStrip low == "bye".data || pyStrip low == "goodbye".data ||
    pyStrip low == "exit".data || pyStrip low == "quit".data

/-- The help quick-reply test. -/
def isHelpQ (low : Str) : Bool :=
  pyStrip low == "help".data

/-- Stages 2 and 3 of `chatbot_reply`: the Wikipedia attempt, then the
generic fallback; `if wiki_ans:` is Python truthiness, so an absent or
empty summary falls through. -/
def afterLocal (p : WikiProvider) (user_input : Str) : Except PyErr Str :=
  match fetch_wikipedia_summary p user_input WIKI_SENTENCES with
  | some w => if w.isEmpty then .ok fallbackMsg else .ok w
  | none => .ok fallbackMsg

/-- `chatbot_reply` from `src/Main.py`, with the knowledge base and the
Wikipedia provider as explicit parameters (the source reads the global
`QA_KB` and the `wikipedia` module). `if answer:` is Python truthiness,
so an absent or empty local answer falls through to `afterLocal`. -/
def chatbot_reply (p : WikiProvider) (kb : List (Str × Str)) (input : Str) : Except PyErr Str :=
  let user_input := pyStrip input
  if user_input.isEmpty then .ok promptMsg
  else
    let low := pyLower user_input
    if isGreetingQ low then .ok greetingMsg
    else if isHowAreYouQ low then .ok howAreYouMsg
    else if isIdentityQ low then .ok identityMsg
    else if isThanksQ low then .ok thanksMsg
    else if isExitQ low then .ok byeMsg
    else if isHelpQ low then .ok helpMsg
    else
      match find_best_local_answer user_input kb FUZZY_CUTOFF with
      | .error e => .error e
      | .ok (_, answer, score) =>
        match answer with
        | some a =>
          if a.isEmpty then afterLocal p user_input
          else if score < Rat.divInt 4 5 then .ok ("(Local) ".data ++ a)
          else .ok a
        | none => afterLocal p user_input

/-- No two consecutive whitespace characters (the shape left by the
whitespace-collapsing substitution). -/
def NoRun (l : Str) : Prop :=
  l.Chain' fun a b => ¬(pyIsSpace a = true ∧ pyIsSpace b = true)

instance instDecNoRun (l : Str) : Decidable (NoRun l) :=
  @List.decidableChain' Char (fun a b => ¬(pyIsSpace a = true ∧ pyIsSpace b = true))
    (fun _ _ => instDecidableNot) l

/-- A provider whose search finds `Mercury`, whose summary for `Mercury`
is ambiguous, and whose summary for the first disambiguation option
succeeds: a concrete instance of the disambiguation-retry path. -/
def demoProvider : WikiProvider :=
  ⟨fun _ _ => .ok ["Mercury".data],
   fun t _ _ _ =>
     if t = "Mercury".data then
       .error (.disambiguation ["Mercury (planet)".data, "Mercury (element)".data])
     else if t = "Mercury (planet)".data then
       .ok "Mercury is the first planet from the Sun.".data
     else .error .other⟩

/-! ### General facts about the reply pipeline -/

lemma isEmpty_false_of_ne_nil {l : Str} (h : l ≠ []) : l.isEmpty = false := by
  cases l with
  | nil => exact absurd rfl h
  | cons c t => rfl

/-- With a non-empty trimmed input whose lowercase form triggers the
greeting test, `chatbot_reply` answers the canned greeting at once. -/
lemma chatbot_reply_greeting (p : WikiProvider) (kb : List (Str × Str)) (x : Str)
    (h1 : pyStrip x ≠ []) (h2 : isGreetingQ (pyLower (pyStrip x)) = true) :
    chatbot_reply p kb x = .ok greetingMsg := by
  have he0 : (pyStrip x).isEmpty = false := isEmpty_false_of_ne_nil h1
  simp [chatbot_reply, he0, h2]

/-- With a non-empty trimmed input on which every quick-reply test
fails, `chatbot_reply` reduces to the local-lookup stage. -/
lemma chatbot_reply_local_stage (p : WikiProvider) (kb : List (Str × Str)) (x : Str)
    (h1 : pyStrip x ≠ [])
    (hg : isGreetingQ (pyLower (pyStrip x)) = false)
    (hh : isHowAreYouQ (pyLower (pyStrip x)) = false)
    (hid : isIdentityQ (pyLower (pyStrip x)) = false)
    (ht : isThanksQ (pyLower (pyStrip x)) = false)
    (hex : isExitQ (pyLower (pyStrip x)) = false)
    (hhp : isHelpQ (pyLower (pyStrip x)) = false) :
    chatbot_reply p kb x =
      match find_best_local_answer (pyStrip x) kb FUZZY_CUTOFF with
      | .error e => .error e
      | .ok (_, answer, score) =>
        match answer with
        | some a =>
          if a.isEmpty then afterLocal p (pyStrip x)
          else if score < Rat.divInt 4 5 then .ok ("(Local) ".data ++ a)
          else .ok a
        | none => afterLocal p (pyStrip x) := by
  have he0 : (pyStrip x).isEmpty = false := isEmpty_false_of_ne_nil h1
  simp [chatbot_reply, he0, hg, hh, hid, ht, hex, hhp]

lemma substringFallback_answer_mem (qn : Str) (c : ℚ) (kb : List (Str × Str))
    (mk : Option Str) (a : Str) (s : ℚ)
    (h : substringFallback qn c kb = (mk, some a, s)) : ∃ e ∈ kb, e.2 = a := by
  induction kb with
  | nil => simp [substringFallback] at h
  | cons e t ih =>
    rw [substringFallback] at h
    by_cases hc : ((pyInStr e.1 qn || pyInStr qn e.1) && decide (c ≤ ratioQ qn e.1)) = true
    · rw [if_pos hc] at h
      exact ⟨e, List.mem_cons_self e t, by injection h with h1 h2; injection h2 with h3 h4; injection h3⟩
    · rw [if_neg hc] at h
      obtain ⟨e2, he2, ha⟩ := ih h
      exact ⟨e2, List.mem_cons_of_mem _ he2, ha⟩

lemma kbGet_answer_mem (kb : List (Str × Str)) (k a : Str)
    (h : kbGet kb k = some a) : ∃ e ∈ kb, e.2 = a := by
  unfold kbGet at h
  cases hf : kb.find? fun e => e.1 == k with
  | none => rw [hf] at h; simp at h
  | some e =>
    rw [hf] at h
    exact ⟨e, List.mem_of_find?_eq_some hf, by injection h⟩

/-- Any answer produced by `find_best_local_answer` is one of the
knowledge base's stored answers. -/
lemma find_answer_mem (q : Str) (kb : List (Str × Str)) (c : ℚ)
    (mk : Option Str) (a : Str) (s : ℚ)
    (h : find_best_local_answer q kb c = .ok (mk, some a, s)) : ∃ e ∈ kb, e.2 = a := by
  simp only [find_best_local_answer] at h
  cases hg : get_close_matches (normalize_text q) (kb.map fun e => e.1) 3 c with
  | error e => rw [hg] at h; simp at h
  | ok ms =>
    rw [hg] at h
    cases ms with
    | nil =>
      simp only [Except.ok.injEq] at h
      exact substringFallback_answer_mem _ _ _ _ _ _ h
    | cons best rest =>
      simp only [Except.ok.injEq, Prod.mk.injEq] at h
      exact kbGet_answer_mem kb best a (by rw [h.2.1])

/-! ### Claims about the quick-reply stage and the Wikipedia client -/

/-- C2: a non-empty (after trimming) input whose lowercase form contains
"hi", "hello", or "hey" as a substring gets the canned greeting, for
every knowledge base and every provider, with neither consulted. -/
theorem claim_C2_greeting_precedes_lookup (p : WikiProvider) (kb : List (Str × Str)) (x : Str)
    (h1 : pyStrip x ≠ []) (h2 : isGreetingQ (pyLower (pyStrip x)) = true) :
    chatbot_reply p kb x = .ok greetingMsg :=
  chatbot_reply_greeting p kb x h1 h2

/-- Witness for C2 at the concrete input `"hello"`. -/
theorem claim_C2_witness :
    chatbot_reply noProvider [] ("hello".data) = .ok greetingMsg :=
  claim_C2_greeting_precedes_lookup noProvider [] ("hello".data) (by decide) (by decide)

/-- C3: `fetch_wikipedia_summary` never propagates a provider error: on
every provider behavior it returns either a formatted summary string or
`none`. -/
theorem claim_C3_fetch_never_raises (p : WikiProvider) (q : Str) (n : Nat) :
    fetch_wikipedia_summary p q n = none ∨
      ∃ t s, fetch_wikipedia_summary p q n = some (formatWiki t s) := by
  cases hsearch : p.search q 5 with
  | error e =>
    cases e with
    | disambiguation opts =>
      cases opts with
      | nil => left; simp [fetch_wikipedia_summary, wikiTry, hsearch]
      | cons o os =>
        cases hsum : p.summary o n false true with
        | ok s =>
          right
          exact ⟨o, s, by simp [fetch_wikipedia_summary, wikiTry, hsearch, hsum]⟩
        | error e2 => left; simp [fetch_wikipedia_summary, wikiTry, hsearch, hsum]
    | pageError => left; simp [fetch_wikipedia_summary, wikiTry, hsearch]
    | other => left; simp [fetch_wikipedia_summary, wikiTry, hsearch]
  | ok l =>
    cases l with
    | nil => left; simp [fetch_wikipedia_summary, wikiTry, hsearch]
    | cons t ts =>
      cases hsum : p.summary t n false true with
      | ok s =>
        right
        exact ⟨t, s, by simp [fetch_wikipedia_summary, wikiTry, hsearch, hsum]⟩
      | error e2 =>
        cases e2 with
        | disambiguation opts =>
          cases opts with
          | nil => left; simp [fetch_wikipedia_summary, wikiTry, hsearch, hsum]
          | cons o os =>
            cases hsum2 : p.summary o n false true with
            | ok s2 =>
              right
              exact ⟨o, s2, by simp [fetch_wikipedia_summary, wikiTry, hsearch, hsum, hsum2]⟩
            | error e3 => left; simp [fetch_wikipedia_summary, wikiTry, hsearch, hsum, hsum2]
        | pageError => left; simp [fetch_wikipedia_summary, wikiTry, hsearch, hsum]
        | other => left; simp [fetch_wikipedia_summary, wikiTry, hsearch, hsum]

/-- C4: when the summary of the top search result raises a
disambiguation error, `fetch_wikipedia_summary` retries exactly once on
the first option: it returns that retry's formatted result on success
and `none` on any failure (including an empty option list). -/
theorem claim_C4_disambiguation_single_retry (p : WikiProvider) (q t : Str)
    (ts opts : List Str) (n : Nat)
    (hs : p.search q 5 = .ok (t :: ts))
    (hd : p.summary t n false true = .error (.disambiguation opts)) :
    fetch_wikipedia_summary p q n =
      match opts with
      | [] => none
      | o :: _ =>
        match p.summary o n false true with
        | .ok s => some (formatWiki o s)
        | .error _ => none := by
  cases opts with
  | nil => simp [fetch_wikipedia_summary, wikiTry, hs, hd]
  | cons o os =>
    cases hsum2 : p.summary o n false true with
    | ok s2 => simp [fetch_wikipedia_summary, wikiTry, hs, hd, hsum2]
    | error e3 => simp [fetch_wikipedia_summary, wikiTry, hs, hd, hsum2]

/-- Witness for C4 on a concrete ambiguous provider. -/
theorem claim_C4_witness :
    fetch_wikipedia_summary demoProvider ("mercury".data) 2 =
      some (formatWiki ("Mercury (planet)".data) ("Mercury is the first planet from the Sun.".data)) := by
  rw [claim_C4_disambiguation_single_retry demoProvider ("mercury".data) ("Mercury".data)
    [] ["Mercury (planet)".data, "Mercury (element)".data] 2 (by decide) (by decide)]
  decide

/-! ### Claims about reachability through the greeting branch -/

/-- C9 (amended): any query whose lowercase trimmed form contains "hi"
as a substring is answered by the canned greeting — so it never reaches
the knowledge-base or Wikipedia stages — and in particular the query
`"what is machine learning"` (whose own text contains "hi" inside
"machine") gets the greeting instead of its stored answer. The entry
itself remains reachable through queries that avoid "hi". -/
theorem claim_C9_hi_queries_get_greeting (p : WikiProvider) (kb : List (Str × Str)) (x : Str) :
    (pyInStr "hi".data (pyLower (pyStrip x)) = true → chatbot_reply p kb x = .ok greetingMsg) ∧
      chatbot_reply p kb ("what is machine learning".data) = .ok greetingMsg := by
  constructor
  · intro h
    have h1 : pyStrip x ≠ [] := by
      intro hq
      rw [hq] at h
      exact absurd h (by decide)
    exact chatbot_reply_greeting p kb x h1 (by simp [isGreetingQ, h])
  · exact chatbot_reply_greeting p kb ("what is machine learning".data) (by decide) (by decide)

/-- Counterexample to C9 as stated: the knowledge-base entry keyed
`"what is machine learning"` is not unreachable — the query
`"ne learning"` (a substring of the key, containing no greeting keyword)
is answered with that entry's stored answer. -/
theorem claim_C9_counterexample :
    chatbot_reply noProvider QA_KB ("ne learning".data) =
      .ok ("(Local) Machine Learning is a subset of AI that allows systems to learn patterns from data and make predictions.".data) := by
  decide

/-- Witness for C9 at the concrete input `"this"`. -/
theorem claim_C9_witness :
    chatbot_reply noProvider [] ("this".data) = .ok greetingMsg :=
  (claim_C9_hi_queries_get_greeting noProvider [] ("this".data)).1 (by decide)

/-! ### Claims C7 and C8 about `normalize_text` (counterexamples) -/

/-- Counterexample to C7: `normalize_text` is not idempotent. Stripping
happens before punctuation removal, so `"a !"` normalizes to `"a "`,
whose normalization is `"a"`. -/
theorem claim_C7_counterexample :
    normalize_text (normalize_text ("a !".data)) ≠ normalize_text ("a !".data) := by
  decide

/-- Counterexample to C8: on `"_ !"` the output `"_ "` keeps the
underscore (a word character that is neither alphanumeric nor
whitespace) and has trailing whitespace. -/
theorem claim_C8_counterexample :
    ¬((∀ c ∈ normalize_text ("_ !".data), Char.toLower c = c) ∧
      pyStrip (normalize_text ("_ !".data)) = normalize_text ("_ !".data) ∧
      (∀ c ∈ normalize_text ("_ !".data), c.isAlphanum = true ∨ pyIsSpace c = true) ∧
      NoRun (normalize_text ("_ !".data))) := by
  decide

/-! ### Claim C10: an empty stored answer is treated as no match -/

/-- C10: if the local lookup finds a match whose stored answer is the
empty string, `chatbot_reply` proceeds as if no local match existed
(Python truthiness), falling through to the Wikipedia stage and then the
generic fallback — for every score, including 1.0. -/
theorem claim_C10_empty_answer_falls_through (p : WikiProvider) (kb : List (Str × Str))
    (x : Str) (mk : Option Str) (s : ℚ)
    (h1 : pyStrip x ≠ [])
    (hg : isGreetingQ (pyLower (pyStrip x)) = false)
    (hh : isHowAreYouQ (pyLower (pyStrip x)) = false)
    (hid : isIdentityQ (pyLower (pyStrip x)) = false)
    (ht : isThanksQ (pyLower (pyStrip x)) = false)
    (hex : isExitQ (pyLower (pyStrip x)) = false)
    (hhp : isHelpQ (pyLower (pyStrip x)) = false)
    (hf : find_best_local_answer (pyStrip x) kb FUZZY_CUTOFF = .ok (mk, some [], s)) :
    chatbot_reply p kb x = afterLocal p (pyStrip x) := by
  rw [chatbot_reply_local_stage p kb x h1 hg hh hid ht hex hhp, hf]
  simp

/-- Witness for C10: a knowledge base whose sole entry has the empty
answer; the query matches it exactly with score 1.0, yet the reply is
the generic fallback. -/
theorem claim_C10_witness :
    chatbot_reply noProvider [("hm".data, [])] ("hm".data) = .ok fallbackMsg := by
  rw [claim_C10_empty_answer_falls_through noProvider [("hm".data, [])] ("hm".data)
    (some ("hm".data)) 1 (by decide) (by decide) (by decide) (by decide) (by decide)
    (by decide) (by decide) (by decide)]
  decide

/-! ### Claim C1: confidence marking at the local-lookup stage -/

/-- C1: on an input that reaches the local-lookup stage, if the lookup
returns a match against the program's `QA_KB`, the reply is the answer
prefixed with `"(Local) "` when the score is below 0.8, and the bare
answer otherwise. (Every `QA_KB` answer is non-empty, so the match is
truthy.) -/
theorem claim_C1_local_marker_threshold (p : WikiProvider) (x : Str)
    (mk : Option Str) (a : Str) (s : ℚ)
    (h1 : pyStrip x ≠ [])
    (hg : isGreetingQ (pyLower (pyStrip x)) = false)
    (hh : isHowAreYouQ (pyLower (pyStrip x)) = false)
    (hid : isIdentityQ (pyLower (pyStrip x)) = false)
    (ht : isThanksQ (pyLower (pyStrip x)) = false)
    (hex : isExitQ (pyLower (pyStrip x)) = false)
    (hhp : isHelpQ (pyLower (pyStrip x)) = false)
    (hf : find_best_local_answer (pyStrip x) QA_KB FUZZY_CUTOFF = .ok (mk, some a, s)) :
    (s < Rat.divInt 4 5 → chatbot_reply p QA_KB x = .ok ("(Local) ".data ++ a)) ∧
      (Rat.divInt 4 5 ≤ s → chatbot_reply p QA_KB x = .ok a) := by
  have hne : a ≠ [] := by
    obtain ⟨e, hmem, hea⟩ := find_answer_mem _ _ _ _ _ _ hf
    have hall : ∀ e ∈ QA_KB, e.2 ≠ ([] : Str) := by decide
    exact hea ▸ hall e hmem
  have hne2 : a.isEmpty = false := isEmpty_false_of_ne_nil hne
  rw [chatbot_reply_local_stage p QA_KB x h1 hg hh hid ht hex hhp, hf]
  constructor
  · intro hs
    simp [hne2, hs]
  · intro hs
    simp [hne2, not_lt.mpr hs]

/-- Witness for C1 at the input `"whats ai"`, which fuzzy-matches the
key `"what is ai"` with score 8/9 ≥ 0.8, so the answer comes unmarked. -/
theorem claim_C1_witness :
    chatbot_reply noProvider QA_KB ("whats ai".data) =
      .ok ("AI stands for Artificial Intelligence — the simulation of human intelligence in machines.".data) :=
  (claim_C1_local_marker_threshold noProvider ("whats ai".data)
      (some ("what is ai".data))
      ("AI stands for Artificial Intelligence — the simulation of human intelligence in machines.".data)
      (Rat.divInt 8 9) (by decide) (by decide) (by decide) (by decide) (by decide)
      (by decide) (by decide) (by decide)).2 (by decide)

/-! ### The shape of `normalize_text` output (for C7 and C8) -/

lemma toNat_charOfNat_of_lt {n : Nat} (h : n < 55296) : (Char.ofNat n).toNat = n := by
  have hv : n.isValidChar := Or.inl h
  rw [Char.ofNat, dif_pos hv]
  rfl

/-- `Char.toLower` is idempotent: lowering lands outside of A–Z. -/
lemma toLower_toLower (c : Char) : Char.toLower (Char.toLower c) = Char.toLower c := by
  simp only [Char.toLower]
  by_cases h : c.toNat ≥ 65 ∧ c.toNat ≤ 90
  · rw [if_pos h]
    have h2 : (Char.ofNat (c.toNat + 32)).toNat = c.toNat + 32 :=
      toNat_charOfNat_of_lt (by omega)
    rw [h2, if_neg (by omega)]
  · rw [if_neg h, if_neg h]

lemma mem_collapseAux {c : Char} : ∀ (fl : Bool) (l : Str), c ∈ collapseAux fl l →
    c = ' ' ∨ (c ∈ l ∧ pyIsSpace c = false)
  | fl, [], h => by simp [collapseAux] at h
  | fl, d :: t, h => by
    rw [collapseAux] at h
    by_cases hd : pyIsSpace d = true
    · rw [if_pos hd] at h
      cases fl with
      | true =>
        rcases mem_collapseAux true t h with h1 | ⟨h2, h3⟩
        · exact Or.inl h1
        · exact Or.inr ⟨List.mem_cons_of_mem _ h2, h3⟩
      | false =>
        rcases List.mem_cons.1 h with h1 | h1
        · exact Or.inl h1
        · rcases mem_collapseAux true t h1 with h2 | ⟨h2, h3⟩
          · exact Or.inl h2
          · exact Or.inr ⟨List.mem_cons_of_mem _ h2, h3⟩
    · rw [if_neg hd] at h
      rcases List.mem_cons.1 h with h1 | h1
      · exact Or.inr ⟨h1 ▸ List.mem_cons_self d t, h1 ▸ (Bool.not_eq_true _ ▸ hd)⟩
      · rcases mem_collapseAux false t h1 with h2 | ⟨h2, h3⟩
        · exact Or.inl h2
        · exact Or.inr ⟨List.mem_cons_of_mem _ h2, h3⟩

lemma collapseAux_true_head {l : Str} {h : Char}
    (hh : (collapseAux true l).head? = some h) : pyIsSpace h = false := by
  induction l with
  | nil => simp [collapseAux] at hh
  | cons d t ih =>
    rw [collapseAux] at hh
    by_cases hd : pyIsSpace d = true
    · rw [if_pos hd] at hh
      exact ih hh
    · rw [if_neg hd] at hh
      injection hh with hh2
      exact hh2 ▸ (Bool.not_eq_true _ ▸ hd)

lemma collapseAux_noRun : ∀ (fl : Bool) (l : Str), NoRun (collapseAux fl l)
  | fl, [] => by simp [collapseAux, NoRun]
  | fl, d :: t => by
    rw [collapseAux]
    by_cases hd : pyIsSpace d = true
    · rw [if_pos hd]
      cases fl with
      | true => exact collapseAux_noRun true t
      | false =>
        refine List.chain'_cons'.2 ⟨fun y hy => ?_, collapseAux_noRun true t⟩
        rw [collapseAux_true_head hy]
        simp
    · rw [if_neg hd]
      refine List.chain'_cons'.2 ⟨fun y hy => ?_, collapseAux_noRun false t⟩
      exact fun hcc => hd hcc.1

/-- On a list with no whitespace runs whose whitespace is all plain
spaces, the collapsing pass is the identity. -/
lemma collapseAux_fix : ∀ l : Str, NoRun l → (∀ c ∈ l, pyIsSpace c = true → c = ' ') →
    collapseAux false l = l ∧
      ((∀ h ∈ l.head?, pyIsSpace h = false) → collapseAux true l = l)
  | [], _, _ => ⟨rfl, fun _ => rfl⟩
  | d :: t, hnr, hbl => by
    have hnrt : NoRun t := (List.chain'_cons'.1 hnr).2
    have hblt : ∀ c ∈ t, pyIsSpace c = true → c = ' ' :=
      fun c hc => hbl c (List.mem_cons_of_mem _ hc)
    obtain ⟨ih1, ih2⟩ := collapseAux_fix t hnrt hblt
    constructor
    · rw [collapseAux]
      by_cases hd : pyIsSpace d = true
      · rw [if_pos hd]
        have hd' : d = ' ' := hbl d (List.mem_cons_self d t) hd
        have ht : collapseAux true t = t := by
          refine ih2 fun h hh => ?_
          have := (List.chain'_cons'.1 hnr).1 h hh
          by_cases hsp : pyIsSpace h = true
          · exact absurd ⟨hd, hsp⟩ this
          · exact Bool.not_eq_true _ ▸ hsp
        rw [ht, hd']
        simp
      · rw [if_neg hd, ih1]
    · intro hhd
      have hd : pyIsSpace d = false := hhd d rfl
      rw [collapseAux, hd]
      simp [ih1]

lemma mem_stripRight {c : Char} : ∀ l : Str, c ∈ stripRight l → c ∈ l
  | [], h => by simp [stripRight] at h
  | d :: t, h => by
    rw [stripRight] at h
    by_cases hc : ((stripRight t).isEmpty && pyIsSpace d) = true
    · rw [if_pos hc] at h
      simp at h
    · rw [if_neg hc] at h
      rcases List.mem_cons.1 h with h1 | h1
      · exact h1 ▸ List.mem_cons_self d t
      · exact List.mem_cons_of_mem _ (mem_stripRight t h1)

lemma stripRight_head? {l : Str} (h : stripRight l ≠ []) :
    (stripRight l).head? = l.head? := by
  cases l with
  | nil => rfl
  | cons d t =>
    rw [stripRight] at h ⊢
    by_cases hc : ((stripRight t).isEmpty && pyIsSpace d) = true
    · rw [if_pos hc] at h
      exact absurd rfl h
    · rw [if_neg hc]
      rfl

lemma noRun_stripRight : ∀ l : Str, NoRun l → NoRun (stripRight l)
  | [], _ => by simp [stripRight, NoRun]
  | d :: t, hnr => by
    rw [stripRight]
    by_cases hc : ((stripRight t).isEmpty && pyIsSpace d) = true
    · rw [if_pos hc]
      simp [NoRun]
    · rw [if_neg hc]
      refine List.chain'_cons'.2 ⟨fun y hy => ?_, noRun_stripRight t (List.chain'_cons'.1 hnr).2⟩
      have hne : stripRight t ≠ [] := by
        intro h0
        rw [h0] at hy
        simp at hy
      rw [stripRight_head? hne] at hy
      exact (List.chain'_cons'.1 hnr).1 y hy

lemma noRun_dropWhile (q : Char → Bool) : ∀ l : Str, NoRun l → NoRun (l.dropWhile q)
  | [], _ => by simp [NoRun]
  | d :: t, hnr => by
    rw [List.dropWhile_cons]
    by_cases hc : q d = true
    · rw [if_pos hc]
      exact noRun_dropWhile q t (List.chain'_cons'.1 hnr).2
    · rw [if_neg hc]
      exact hnr

lemma mem_pyStrip {c : Char} {l : Str} (h : c ∈ pyStrip l) : c ∈ l :=
  (List.dropWhile_sublist pyIsSpace).subset (mem_stripRight _ h)

lemma noRun_pyStrip {l : Str} (h : NoRun l) : NoRun (pyStrip l) :=
  noRun_stripRight _ (noRun_dropWhile pyIsSpace l h)

lemma map_id_of_mem {l : Str} {f : Char → Char} (h : ∀ c ∈ l, f c = c) : l.map f = l := by
  induction l with
  | nil => rfl
  | cons d t ih =>
    rw [List.map_cons, h d (List.mem_cons_self d t), ih fun c hc => h c (List.mem_cons_of_mem _ hc)]

/-- Every character of a normalized text is a fixed point of lowering,
is kept by the character filter, and is a plain space if whitespace. -/
lemma normalize_text_char_shape {c : Char} {x : Str} (h : c ∈ normalize_text x) :
    Char.toLower c = c ∧ keepChar c = true ∧ (pyIsSpace c = true → c = ' ') := by
  rcases mem_collapseAux false _ h with h1 | ⟨h2, h3⟩
  · subst h1
    refine ⟨by decide, by decide, fun _ => rfl⟩
  · have hkeep : keepChar c = true := (List.mem_filter.1 h2).2
    have hmem : c ∈ pyLower x := mem_pyStrip (List.mem_filter.1 h2).1
    obtain ⟨c0, _, hc0⟩ := List.mem_map.1 hmem
    refine ⟨hc0 ▸ toLower_toLower c0, hkeep, fun hsp => absurd hsp (by rw [h3]; simp)⟩

/-- The output of `normalize_text` has no whitespace runs. -/
lemma normalize_text_noRun (x : Str) : NoRun (normalize_text x) :=
  collapseAux_noRun false _

/-- C7 (amended): normalizing twice strips the result of normalizing
once; `normalize_text` is idempotent exactly on the inputs whose
normalization carries no leading or trailing space. -/
theorem claim_C7_normalize_twice_strips (x : Str) :
    normalize_text (normalize_text x) = pyStrip (normalize_text x) := by
  have hlow : pyLower (normalize_text x) = normalize_text x :=
    map_id_of_mem fun c hc => (normalize_text_char_shape hc).1
  have hfil : (pyStrip (normalize_text x)).filter keepChar = pyStrip (normalize_text x) :=
    List.filter_eq_self.2 fun c hc => (normalize_text_char_shape (mem_pyStrip hc)).2.1
  have hfix : collapseAux false (pyStrip (normalize_text x)) = pyStrip (normalize_text x) :=
    (collapseAux_fix _ (noRun_pyStrip (normalize_text_noRun x))
      (fun c hc => (normalize_text_char_shape (mem_pyStrip hc)).2.2)).1
  rw [normalize_text, hlow, hfil, collapseSpaces, hfix]

/-- Witness for C7 (amended) at a concrete input with trailing
punctuation. -/
theorem claim_C7_witness :
    normalize_text (normalize_text ("a b !".data)) = pyStrip (normalize_text ("a b !".data)) :=
  claim_C7_normalize_twice_strips ("a b !".data)

/-- C8 (amended): every character of a normalized text is a fixed point
of lowercasing and is a word character (alphanumeric or underscore) or
the plain space, and no two consecutive whitespace characters occur.
(Leading or trailing a space may remain; underscores are kept.) -/
theorem claim_C8_normalized_char_classes (x : Str) :
    (∀ c ∈ normalize_text x, Char.toLower c = c) ∧
      (∀ c ∈ normalize_text x, isWordChar c = true ∨ c = ' ') ∧
      NoRun (normalize_text x) := by
  refine ⟨fun c hc => (normalize_text_char_shape hc).1, fun c hc => ?_, normalize_text_noRun x⟩
  obtain ⟨-, hkeep, hsp⟩ := normalize_text_char_shape hc
  rw [keepChar, Bool.or_eq_true] at hkeep
  rcases hkeep with h1 | h1
  · exact Or.inl h1
  · exact Or.inr (hsp h1)

/-- Witness for C8 (amended), discharging the membership hypothesis at
a concrete character of a concrete normalized text. -/
theorem claim_C8_witness : Char.toLower 'a' = 'a' :=
  (claim_C8_normalized_char_classes ("A b".data)).1 'a' (by decide)

/-! ### Claim C6: the substring-containment fallback -/

/-- The fallback loop returns the first entry whose key is related to
the normalized query by substring containment and whose score clears
the cutoff, and the empty result when none qualifies. -/
lemma substringFallback_eq_find (qn : Str) (c : ℚ) (kb : List (Str × Str)) :
    substringFallback qn c kb =
      match kb.find? (fun e => (pyInStr e.1 qn || pyInStr qn e.1) && decide (c ≤ ratioQ qn e.1)) with
      | some e => (some e.1, some e.2, ratioQ qn e.1)
      | none => (none, none, 0) := by
  induction kb with
  | nil => rfl
  | cons e t ih =>
    rw [substringFallback]
    simp only [List.find?_cons]
    by_cases hc : ((pyInStr e.1 qn || pyInStr qn e.1) && decide (c ≤ ratioQ qn e.1)) = true
    · rw [if_pos hc, hc]
    · have hcf : ((pyInStr e.1 qn || pyInStr qn e.1) && decide (c ≤ ratioQ qn e.1)) = false := by
        simpa using hc
      rw [if_neg hc, hcf, ih]

/-- C6: whenever the ranked fuzzy pass returns no candidate, the lookup
returns the first key (in knowledge-base order) that contains or is
contained in the normalized query with score at or above the cutoff,
together with its answer and that score — and `(none, none, 0)` when no
key qualifies; no exception escapes. -/
theorem claim_C6_substring_fallback (q : Str) (kb : List (Str × Str)) (cutoff : ℚ)
    (h : get_close_matches (normalize_text q) (kb.map fun e => e.1) 3 cutoff = .ok []) :
    find_best_local_answer q kb cutoff =
      .ok (match kb.find? (fun e => (pyInStr e.1 (normalize_text q) || pyInStr (normalize_text q) e.1)
              && decide (cutoff ≤ ratioQ (normalize_text q) e.1)) with
        | some e => (some e.1, some e.2, ratioQ (normalize_text q) e.1)
        | none => (none, none, 0)) := by
  simp only [find_best_local_answer]
  rw [h, ← substringFallback_eq_find]

/-- Witness for C6: `"zzz"` matches nothing in `QA_KB` under either
phase. -/
theorem claim_C6_witness :
    find_best_local_answer ("zzz".data) QA_KB FUZZY_CUTOFF = .ok (none, none, 0) := by
  rw [claim_C6_substring_fallback ("zzz".data) QA_KB FUZZY_CUTOFF (by decide)]
  decide

/-! ### The difflib similarity theory (for C5) -/

lemma isMatchAt_zero (a b : Str) : isMatchAt a b 0 0 0 = true := by
  simp [isMatchAt]

lemma isMatchAt_spec {a b : Str} {i j k : Nat} (h : isMatchAt a b i j k = true) :
    i + k ≤ a.length ∧ j + k ≤ b.length ∧ (a.drop i).take k = (b.drop j).take k := by
  have h2 : (i + k ≤ a.length ∧ j + k ≤ b.length) ∧ (a.drop i).take k = (b.drop j).take k := by
    simpa [isMatchAt] using h
  exact ⟨h2.1.1, h2.1.2, h2.2⟩

lemma hasMatchOfSize_zero (a b : Str) : hasMatchOfSize a b 0 = true := by
  rw [hasMatchOfSize, List.any_eq_true]
  refine ⟨0, List.mem_range.2 (Nat.succ_pos _), ?_⟩
  rw [List.any_eq_true]
  exact ⟨0, List.mem_range.2 (Nat.succ_pos _), isMatchAt_zero a b⟩

lemma hasMatchOfSize_lmSize (a b : Str) : hasMatchOfSize a b (lmSize a b) = true := by
  rw [lmSize]
  cases hL : ((List.range (min a.length b.length + 1)).filter (hasMatchOfSize a b)).getLast? with
  | none => exact hasMatchOfSize_zero a b
  | some k => exact (List.mem_filter.1 (List.mem_of_getLast?_eq_some hL)).2

/-- The triple picked by `findLongestMatch` really is a matching block. -/
lemma flm_isMatch (a b : Str) :
    isMatchAt a b (findLongestMatch a b).1 (findLongestMatch a b).2.1
      (findLongestMatch a b).2.2 = true := by
  simp only [findLongestMatch]
  cases hfi : (List.range (a.length + 1)).find?
      (fun i => (List.range (b.length + 1)).any fun j => isMatchAt a b i j (lmSize a b)) with
  | none => exact isMatchAt_zero a b
  | some i =>
    have hi0 := List.find?_some hfi
    have hi : ((List.range (b.length + 1)).any fun j => isMatchAt a b i j (lmSize a b)) = true := hi0
    rw [List.any_eq_true] at hi
    obtain ⟨j0, hj0m, hj0⟩ := hi
    dsimp only
    cases hfj : (List.range (b.length + 1)).find? (fun j => isMatchAt a b i j (lmSize a b)) with
    | none => exact absurd hj0 (List.find?_eq_none.1 hfj j0 hj0m)
    | some j =>
      have hj := List.find?_some hfj
      exact hj

/-- Any fuel strictly above the length of the first sequence computes
the same total. -/
lemma matchTotalFuel_congr : ∀ (f1 : Nat) (f2 : Nat) (a b : Str),
    a.length < f1 → a.length < f2 → matchTotalFuel f1 a b = matchTotalFuel f2 a b
  | 0, _, a, b, h1, _ => absurd h1 (Nat.not_lt_zero _)
  | _ + 1, 0, a, b, _, h2 => absurd h2 (Nat.not_lt_zero _)
  | f1 + 1, f2 + 1, a, b, h1, h2 => by
    simp only [matchTotalFuel]
    by_cases hk : (findLongestMatch a b).2.2 = 0
    · rw [if_pos hk, if_pos hk]
    · rw [if_neg hk, if_neg hk]
      obtain ⟨hia, hjb, -⟩ := isMatchAt_spec (flm_isMatch a b)
      have hk1 : 1 ≤ (findLongestMatch a b).2.2 := Nat.one_le_iff_ne_zero.2 hk
      have hlt1 : (a.take (findLongestMatch a b).1).length < f1 := by
        rw [List.length_take]; omega
      have hlt2 : (a.take (findLongestMatch a b).1).length < f2 := by
        rw [List.length_take]; omega
      have hld1 : (a.drop ((findLongestMatch a b).1 + (findLongestMatch a b).2.2)).length < f1 := by
        rw [List.length_drop]; omega
      have hld2 : (a.drop ((findLongestMatch a b).1 + (findLongestMatch a b).2.2)).length < f2 := by
        rw [List.length_drop]; omega
      rw [matchTotalFuel_congr f1 f2 _ _ hlt1 hlt2, matchTotalFuel_congr f1 f2 _ _ hld1 hld2]

/-- The recurrence satisfied by `matchTotal`. -/
lemma matchTotal_rec (a b : Str) :
    matchTotal a b =
      if (findLongestMatch a b).2.2 = 0 then 0
      else
        (findLongestMatch a b).2.2 +
          matchTotal (a.take (findLongestMatch a b).1) (b.take (findLongestMatch a b).2.1) +
          matchTotal (a.drop ((findLongestMatch a b).1 + (findLongestMatch a b).2.2))
            (b.drop ((findLongestMatch a b).2.1 + (findLongestMatch a b).2.2)) := by
  rw [matchTotal]
  simp only [matchTotalFuel]
  by_cases hk : (findLongestMatch a b).2.2 = 0
  · rw [if_pos hk, if_pos hk]
  · rw [if_neg hk, if_neg hk]
    obtain ⟨hia, hjb, -⟩ := isMatchAt_spec (flm_isMatch a b)
    have hk1 : 1 ≤ (findLongestMatch a b).2.2 := Nat.one_le_iff_ne_zero.2 hk
    rw [matchTotalFuel_congr a.length _ _ _ (by rw [List.length_take]; omega)
        (Nat.lt_succ_self _),
      matchTotalFuel_congr a.length _ _ _ (by rw [List.length_drop]; omega)
        (Nat.lt_succ_self _)]
    rfl

lemma matchTotal_le_left_aux : ∀ (n : Nat) (a b : Str), a.length ≤ n → matchTotal a b ≤ a.length
  | 0, a, b, h => by
    rw [matchTotal_rec]
    by_cases hk : (findLongestMatch a b).2.2 = 0
    · rw [if_pos hk]
      exact Nat.zero_le _
    · obtain ⟨hia, -, -⟩ := isMatchAt_spec (flm_isMatch a b)
      omega
  | n + 1, a, b, h => by
    rw [matchTotal_rec]
    by_cases hk : (findLongestMatch a b).2.2 = 0
    · rw [if_pos hk]
      exact Nat.zero_le _
    · rw [if_neg hk]
      obtain ⟨hia, hjb, -⟩ := isMatchAt_spec (flm_isMatch a b)
      have hk1 : 1 ≤ (findLongestMatch a b).2.2 := Nat.one_le_iff_ne_zero.2 hk
      have h1 := matchTotal_le_left_aux n (a.take (findLongestMatch a b).1)
        (b.take (findLongestMatch a b).2.1) (by rw [List.length_take]; omega)
      have h2 := matchTotal_le_left_aux n
        (a.drop ((findLongestMatch a b).1 + (findLongestMatch a b).2.2))
        (b.drop ((findLongestMatch a b).2.1 + (findLongestMatch a b).2.2))
        (by rw [List.length_drop]; omega)
      rw [List.length_take] at h1
      rw [List.length_drop] at h2
      omega

/-- The matching-block total is at most the length of the first sequence. -/
lemma matchTotal_le_left (a b : Str) : matchTotal a b ≤ a.length :=
  matchTotal_le_left_aux a.length a b le_rfl

lemma matchTotal_le_right_aux : ∀ (n : Nat) (a b : Str), a.length ≤ n → matchTotal a b ≤ b.length
  | 0, a, b, h => by
    rw [matchTotal_rec]
    by_cases hk : (findLongestMatch a b).2.2 = 0
    · rw [if_pos hk]
      exact Nat.zero_le _
    · obtain ⟨hia, -, -⟩ := isMatchAt_spec (flm_isMatch a b)
      omega
  | n + 1, a, b, h => by
    rw [matchTotal_rec]
    by_cases hk : (findLongestMatch a b).2.2 = 0
    · rw [if_pos hk]
      exact Nat.zero_le _
    · rw [if_neg hk]
      obtain ⟨hia, hjb, -⟩ := isMatchAt_spec (flm_isMatch a b)
      have hk1 : 1 ≤ (findLongestMatch a b).2.2 := Nat.one_le_iff_ne_zero.2 hk
      have h1 := matchTotal_le_right_aux n (a.take (findLongestMatch a b).1)
        (b.take (findLongestMatch a b).2.1) (by rw [List.length_take]; omega)
      have h2 := matchTotal_le_right_aux n
        (a.drop ((findLongestMatch a b).1 + (findLongestMatch a b).2.2))
        (b.drop ((findLongestMatch a b).2.1 + (findLongestMatch a b).2.2))
        (by rw [List.length_drop]; omega)
      rw [List.length_take] at h1
      rw [List.length_drop] at h2
      omega

/-- The matching-block total is at most the length of the second sequence. -/
lemma matchTotal_le_right (a b : Str) : matchTotal a b ≤ b.length :=
  matchTotal_le_right_aux a.length a b le_rfl

/-- A full matching total on sequences of the same length forces the
sequences to be equal. -/
lemma matchTotal_full_aux : ∀ (n : Nat) (a b : Str), a.length ≤ n →
    matchTotal a b = a.length → a.length = b.length → a = b
  | 0, a, b, h, _, hlen => by
    have ha : a = [] := List.length_eq_zero.1 (by omega)
    have hb : b = [] := List.length_eq_zero.1 (by omega)
    rw [ha, hb]
  | n + 1, a, b, h, hM, hlen => by
    rw [matchTotal_rec] at hM
    by_cases hk : (findLongestMatch a b).2.2 = 0
    · rw [if_pos hk] at hM
      have ha : a = [] := List.length_eq_zero.1 hM.symm
      have hb : b = [] := List.length_eq_zero.1 (by omega)
      rw [ha, hb]
    · rw [if_neg hk] at hM
      obtain ⟨hia, hjb, hblock⟩ := isMatchAt_spec (flm_isMatch a b)
      have hk1 : 1 ≤ (findLongestMatch a b).2.2 := Nat.one_le_iff_ne_zero.2 hk
      have hM1a := matchTotal_le_left (a.take (findLongestMatch a b).1)
        (b.take (findLongestMatch a b).2.1)
      have hM1b := matchTotal_le_right (a.take (findLongestMatch a b).1)
        (b.take (findLongestMatch a b).2.1)
      have hM2a := matchTotal_le_left
        (a.drop ((findLongestMatch a b).1 + (findLongestMatch a b).2.2))
        (b.drop ((findLongestMatch a b).2.1 + (findLongestMatch a b).2.2))
      have hM2b := matchTotal_le_right
        (a.drop ((findLongestMatch a b).1 + (findLongestMatch a b).2.2))
        (b.drop ((findLongestMatch a b).2.1 + (findLongestMatch a b).2.2))
      rw [List.length_take] at hM1a hM1b
      rw [List.length_drop] at hM2a hM2b
      have hij : (findLongestMatch a b).1 = (findLongestMatch a b).2.1 := by omega
      have htake : a.take (findLongestMatch a b).1 = b.take (findLongestMatch a b).2.1 := by
        refine matchTotal_full_aux n _ _ ?_ ?_ ?_
        · rw [List.length_take]; omega
        · rw [List.length_take]; omega
        · rw [List.length_take, List.length_take]; omega
      have hdrop : a.drop ((findLongestMatch a b).1 + (findLongestMatch a b).2.2) =
          b.drop ((findLongestMatch a b).2.1 + (findLongestMatch a b).2.2) := by
        refine matchTotal_full_aux n _ _ ?_ ?_ ?_
        · rw [List.length_drop]; omega
        · rw [List.length_drop]; omega
        · rw [List.length_drop, List.length_drop]; omega
      calc a = a.take (findLongestMatch a b).1 ++ a.drop (findLongestMatch a b).1 :=
            (List.take_append_drop _ a).symm
        _ = a.take (findLongestMatch a b).1 ++
              ((a.drop (findLongestMatch a b).1).take (findLongestMatch a b).2.2 ++
                (a.drop (findLongestMatch a b).1).drop (findLongestMatch a b).2.2) := by
            congr 1
            exact (List.take_append_drop _ _).symm
        _ = b.take (findLongestMatch a b).2.1 ++
              ((b.drop (findLongestMatch a b).2.1).take (findLongestMatch a b).2.2 ++
                (b.drop (findLongestMatch a b).2.1).drop (findLongestMatch a b).2.2) := by
            rw [List.drop_drop, List.drop_drop, htake, hblock, hdrop]
        _ = b.take (findLongestMatch a b).2.1 ++ b.drop (findLongestMatch a b).2.1 := by
            congr 1
            exact List.take_append_drop _ _
        _ = b := List.take_append_drop _ b

lemma matchTotal_full {a b : Str} (hM : matchTotal a b = a.length)
    (hlen : a.length = b.length) : a = b :=
  matchTotal_full_aux a.length a b le_rfl hM hlen

lemma isMatchAt_self_full (a : Str) : isMatchAt a a 0 0 a.length = true := by
  simp [isMatchAt]

lemma hasMatchOfSize_self_full (a : Str) : hasMatchOfSize a a a.length = true := by
  rw [hasMatchOfSize, List.any_eq_true]
  refine ⟨0, List.mem_range.2 (Nat.succ_pos _), ?_⟩
  rw [List.any_eq_true]
  exact ⟨0, List.mem_range.2 (Nat.succ_pos _), isMatchAt_self_full a⟩

lemma lmSize_self (a : Str) : lmSize a a = a.length := by
  rw [lmSize, Nat.min_self, List.range_succ, List.filter_append]
  have h1 : List.filter (hasMatchOfSize a a) [a.length] = [a.length] := by
    simp [hasMatchOfSize_self_full a]
  rw [h1, List.getLast?_concat]

lemma flm_self (a : Str) : findLongestMatch a a = (0, 0, a.length) := by
  simp only [findLongestMatch, lmSize_self]
  have h0 : ((List.range (a.length + 1)).any fun j => isMatchAt a a 0 j a.length) = true := by
    rw [List.any_eq_true]
    exact ⟨0, List.mem_range.2 (Nat.succ_pos _), isMatchAt_self_full a⟩
  have hform : List.range (a.length + 1) = 0 :: (List.range a.length).map Nat.succ :=
    List.range_succ_eq_map a.length
  have hfi : (List.range (a.length + 1)).find?
      (fun i => (List.range (a.length + 1)).any fun j => isMatchAt a a i j a.length) = some 0 := by
    conv_lhs => rw [hform]
    refine List.find?_cons_of_pos _ ?_
    rw [← hform]
    exact h0
  rw [hfi]
  dsimp only
  have hfj : (List.range (a.length + 1)).find? (fun j => isMatchAt a a 0 j a.length) = some 0 := by
    conv_lhs => rw [hform]
    exact List.find?_cons_of_pos _ (isMatchAt_self_full a)
  rw [hfj]

lemma matchTotal_nil_left (b : Str) : matchTotal [] b = 0 := by
  rw [matchTotal_rec]
  obtain ⟨hia, -, -⟩ := isMatchAt_spec (flm_isMatch [] b)
  have hk : (findLongestMatch [] b).2.2 = 0 := by
    simp only [List.length_nil] at hia
    omega
  rw [if_pos hk]

lemma matchTotal_self (a : Str) : matchTotal a a = a.length := by
  rw [matchTotal_rec, flm_self]
  by_cases ha : a.length = 0
  · simp [ha]
  · rw [if_neg ha]
    simp [matchTotal_nil_left]

lemma calcRatioQ_eq_div (m L : Nat) :
    calcRatioQ m L = if L = 0 then 1 else (2 * (m : ℚ)) / (L : ℚ) := by
  rw [calcRatioQ]
  by_cases hL : L = 0
  · rw [if_pos hL, if_pos hL]
  · rw [if_neg hL, if_neg hL, Rat.divInt_eq_div]
    push_cast
    ring

lemma calcRatioQ_double (n : Nat) : calcRatioQ n (n + n) = 1 := by
  rw [calcRatioQ_eq_div]
  by_cases hn : n + n = 0
  · rw [if_pos hn]
  · rw [if_neg hn]
    have hq : ((n : ℚ) + n) ≠ 0 := by
      have : ((n + n : Nat) : ℚ) ≠ 0 := Nat.cast_ne_zero.2 hn
      push_cast at this
      exact this
    rw [div_eq_one_iff_eq (by push_cast; exact hq)]
    push_cast
    ring

/-- `ratio` of a sequence with itself is 1 (also for the empty one). -/
lemma ratioQ_self (a : Str) : ratioQ a a = 1 := by
  rw [ratioQ, matchTotal_self]
  exact calcRatioQ_double a.length

lemma quickRatioQ_self (a : Str) : quickRatioQ a a = 1 := by
  rw [quickRatioQ]
  have hsum : (a.dedup.map fun c => min (a.count c) (a.count c)).sum = a.length := by
    simp only [Nat.min_self]
    exact List.sum_map_count_dedup_eq_length a
  rw [hsum]
  exact calcRatioQ_double a.length

lemma realQuickRatioQ_self (a : Str) : realQuickRatioQ a a = 1 := by
  rw [realQuickRatioQ, Nat.min_self]
  exact calcRatioQ_double a.length

/-- Every ratio is at most 1. -/
lemma ratioQ_le_one (a b : Str) : ratioQ a b ≤ 1 := by
  rw [ratioQ, calcRatioQ_eq_div]
  by_cases hL : a.length + b.length = 0
  · rw [if_pos hL]
  · rw [if_neg hL]
    have h1 := matchTotal_le_left a b
    have h2 := matchTotal_le_right a b
    have hpos : (0 : ℚ) < ((a.length + b.length : Nat) : ℚ) :=
      Nat.cast_pos.2 (Nat.pos_of_ne_zero hL)
    rw [div_le_one (by push_cast at hpos ⊢; exact hpos)]
    have : 2 * matchTotal a b ≤ a.length + b.length := by omega
    push_cast
    exact_mod_cast this

/-- A ratio of exactly 1 forces the sequences to be equal. -/
lemma ratioQ_eq_one {a b : Str} (h : ratioQ a b = 1) : a = b := by
  rw [ratioQ, calcRatioQ_eq_div] at h
  by_cases hL : a.length + b.length = 0
  · have ha : a = [] := List.length_eq_zero.1 (by omega)
    have hb : b = [] := List.length_eq_zero.1 (by omega)
    rw [ha, hb]
  · rw [if_neg hL] at h
    have hq : ((a.length : ℚ) + b.length) ≠ 0 := by
      have : ((a.length + b.length : Nat) : ℚ) ≠ 0 := Nat.cast_ne_zero.2 hL
      push_cast at this
      exact this
    rw [div_eq_one_iff_eq (by push_cast; exact hq)] at h
    have hNat : 2 * matchTotal a b = a.length + b.length := by exact_mod_cast h
    have h1 := matchTotal_le_left a b
    have h2 := matchTotal_le_right a b
    exact matchTotal_full (by omega) (by omega)

/-! ### The ordering of scored candidates (for C5) -/

lemma strLtB_irrefl (s : Str) : strLtB s s = false := by
  induction s with
  | nil => rfl
  | cons c t ih =>
    rw [strLtB]
    simp [ih]

lemma pairGe_refl (p : ℚ × Str) : pairGe p p = true := by
  simp [pairGe, strLtB_irrefl]

lemma pairGe_of_lt {p q : ℚ × Str} (h : q.1 < p.1) : pairGe p q = true := by
  simp [pairGe, h]

lemma pairGe_false_of_lt {p q : ℚ × Str} (h : p.1 < q.1) : pairGe p q = false := by
  have h1 : ¬(q.1 < p.1) := lt_asymm h
  have h2 : p.1 ≠ q.1 := ne_of_lt h
  simp [pairGe, h1, h2]

lemma mem_insertDesc {x p : ℚ × Str} : ∀ l : List (ℚ × Str),
    x ∈ insertDesc p l → x = p ∨ x ∈ l
  | [], h => by simpa [insertDesc] using h
  | q :: t, h => by
    rw [insertDesc] at h
    by_cases hge : pairGe p q = true
    · rw [if_pos hge] at h
      rcases List.mem_cons.1 h with h1 | h1
      · exact Or.inl h1
      · exact Or.inr h1
    · rw [if_neg hge] at h
      rcases List.mem_cons.1 h with h1 | h1
      · exact Or.inr (h1 ▸ List.mem_cons_self q t)
      · rcases mem_insertDesc t h1 with h2 | h2
        · exact Or.inl h2
        · exact Or.inr (List.mem_cons_of_mem _ h2)

lemma mem_sortDesc {x : ℚ × Str} : ∀ l : List (ℚ × Str), x ∈ sortDesc l → x ∈ l
  | [], h => by simp [sortDesc] at h
  | q :: t, h => by
    rw [sortDesc] at h
    rcases mem_insertDesc _ h with h1 | h1
    · exact h1 ▸ List.mem_cons_self q t
    · exact List.mem_cons_of_mem _ (mem_sortDesc t h1)

/-- If `p` belongs to `l` and strictly dominates every other element by
score, then `p` heads the descending sort. -/
lemma head_sortDesc : ∀ (l : List (ℚ × Str)) (p : ℚ × Str), p ∈ l →
    (∀ q ∈ l, q ≠ p → q.1 < p.1) → (sortDesc l).head? = some p
  | [], p, hp, _ => absurd hp (List.not_mem_nil p)
  | x :: t, p, hp, hmax => by
    rw [sortDesc]
    by_cases hxp : x = p
    · subst hxp
      cases hs : sortDesc t with
      | nil => rfl
      | cons h t2 =>
        have hh : h ∈ t := mem_sortDesc t (hs ▸ List.mem_cons_self h t2)
        have hge : pairGe x h = true := by
          by_cases hhp : h = x
          · exact hhp ▸ pairGe_refl x
          · exact pairGe_of_lt (hmax h (List.mem_cons_of_mem _ hh) hhp)
        rw [insertDesc, if_pos hge]
        rfl
    · have hpt : p ∈ t := by
        rcases List.mem_cons.1 hp with h1 | h1
        · exact absurd h1.symm hxp
        · exact h1
      have hxlt : x.1 < p.1 := hmax x (List.mem_cons_self x t) hxp
      have ihh : (sortDesc t).head? = some p :=
        head_sortDesc t p hpt fun q hq hqp => hmax q (List.mem_cons_of_mem _ hq) hqp
      cases hs : sortDesc t with
      | nil => rw [hs] at ihh; exact absurd ihh (by simp)
      | cons h t2 =>
        rw [hs] at ihh
        injection ihh with ihh2
        subst ihh2
        have hnge : pairGe x h = false := pairGe_false_of_lt hxlt
        rw [insertDesc, hnge]
        rfl

/-! ### Claim C5: exact knowledge-base keys match themselves -/

/-- A word that occurs among the possibilities heads the candidate list
of `get_close_matches` for any valid cutoff: it scores 1 on the whole
ratio cascade, and every other candidate scores strictly below 1. -/
lemma get_close_matches_exact (possibilities : List Str) (k : Str) (cutoff : ℚ)
    (hk : k ∈ possibilities) (h0 : 0 ≤ cutoff) (h1 : cutoff ≤ 1) :
    ∃ rest, get_close_matches k possibilities 3 cutoff = .ok (k :: rest) := by
  simp only [get_close_matches]
  rw [if_neg (by decide : ¬(3 = 0)), if_neg (not_not_intro ⟨h0, h1⟩)]
  have hmemR : (1, k) ∈ possibilities.filterMap fun x =>
      if cutoff ≤ realQuickRatioQ x k ∧ cutoff ≤ quickRatioQ x k ∧ cutoff ≤ ratioQ x k
      then some (ratioQ x k, x) else none := by
    refine List.mem_filterMap.2 ⟨k, hk, ?_⟩
    rw [if_pos ⟨by rw [realQuickRatioQ_self]; exact h1,
      by rw [quickRatioQ_self]; exact h1, by rw [ratioQ_self]; exact h1⟩, ratioQ_self]
  have hmax : ∀ q ∈ possibilities.filterMap fun x =>
      if cutoff ≤ realQuickRatioQ x k ∧ cutoff ≤ quickRatioQ x k ∧ cutoff ≤ ratioQ x k
      then some (ratioQ x k, x) else none, q ≠ ((1 : ℚ), k) → q.1 < (1 : ℚ) := by
    intro q hq hne
    obtain ⟨x, hxm, hfx⟩ := List.mem_filterMap.1 hq
    by_cases hcond : cutoff ≤ realQuickRatioQ x k ∧ cutoff ≤ quickRatioQ x k ∧ cutoff ≤ ratioQ x k
    · rw [if_pos hcond] at hfx
      injection hfx with hfx2
      rcases lt_or_eq_of_le (ratioQ_le_one x k) with hlt | heq
      · rw [← hfx2]
        exact hlt
      · exact absurd (by rw [← hfx2, heq, ratioQ_eq_one heq]) hne
    · rw [if_neg hcond] at hfx
      exact absurd hfx (by simp)
  have hhead := head_sortDesc _ _ hmemR hmax
  cases hs : sortDesc (possibilities.filterMap fun x =>
      if cutoff ≤ realQuickRatioQ x k ∧ cutoff ≤ quickRatioQ x k ∧ cutoff ≤ ratioQ x k
      then some (ratioQ x k, x) else none) with
  | nil => rw [hs] at hhead; exact absurd hhead (by simp)
  | cons h t2 =>
    rw [hs] at hhead
    injection hhead with hh2
    subst hh2
    refine ⟨(t2.take 2).map fun p => p.2, ?_⟩
    rw [List.take_succ_cons, List.map_cons]

/-- C5 (amended): for a knowledge-base key `k` (already normalized) and
any cutoff in [0, 1], the lookup finds `k` itself with its stored
answer and score exactly 1. -/
theorem claim_C5_exact_key_scores_one (kb : List (Str × Str)) (k : Str) (cutoff : ℚ)
    (hk : k ∈ kb.map fun e => e.1) (hnorm : normalize_text k = k)
    (h0 : 0 ≤ cutoff) (h1 : cutoff ≤ 1) :
    find_best_local_answer k kb cutoff = .ok (some k, kbGet kb k, 1) := by
  obtain ⟨rest, hgcm⟩ := get_close_matches_exact (kb.map fun e => e.1) k cutoff hk h0 h1
  simp only [find_best_local_answer, hnorm, hgcm, ratioQ_self]

/-- Counterexample to C5 as stated: the claim quantifies over every
cutoff at most 1, but for a negative cutoff `difflib.get_close_matches`
raises `ValueError` instead of returning the triple. -/
theorem claim_C5_counterexample :
    find_best_local_answer ("what is python".data) QA_KB (Rat.divInt (-1) 1) =
      .error .valueError := by
  rfl

/-- Witness for C5 (amended) on a concrete knowledge-base key. -/
theorem claim_C5_witness :
    find_best_local_answer ("what is ai".data) QA_KB FUZZY_CUTOFF =
      .ok (some ("what is ai".data), kbGet QA_KB ("what is ai".data), 1) :=
  claim_C5_exact_key_scores_one QA_KB ("what is ai".data) FUZZY_CUTOFF
    (by decide) (by decide) (by decide) (by decide)
